import Mathlib

/-!
Verification of applegrep (src/applegrep/main.cpp): a GPU-offloaded literal
substring search.  The Metal kernel `grep_kernel` (lines 20-66) is embedded as
a pure function over byte lists; the host pipeline of `main` (lines 81-217)
is embedded as explicit list processing.  Machine integers are modelled as
Nat with explicit wraparound where the source performs unsigned arithmetic.
-/

namespace Applegrep

/-- A byte, 0..255, as carried by the device buffers. -/
abbrev Byte := Nat

/-- The C-string length scan at main.cpp lines 28-33: counts bytes up to the
first NUL byte of the buffer. -/
def cstrlen : List Byte → Nat
  | [] => 0
  | b :: t => if b = 0 then 0 else cstrlen t + 1

/-- Modulus of the 32-bit `uint` type used for lengths and thread ids in the
kernel. -/
def UINT_MOD : Nat := 2 ^ 32

/-- Modulus of the 64-bit `size_t` type used by the host. -/
def SIZE_T_MOD : Nat := 2 ^ 64

/-- Wrapping `uint` subtraction, as in `text_length - pattern_length` at
main.cpp line 36 (both operands are `uint`). -/
def uintSub (a b : Nat) : Nat := (a + UINT_MOD - b) % UINT_MOD

/-- The hard-coded bound of the write guard at main.cpp line 62:
`if (count < 1000)`. -/
def KERNEL_GUARD : Nat := 1000

/-- The host-side capacity of the offsets buffer, main.cpp line 100:
`const size_t max_matches = 10;`. -/
def max_matches : Nat := 10

/-- The right-to-left comparison loop of the kernel, main.cpp lines 52-57:
`int j = pattern_length - 1; while (j >= 0 && pattern[j] == text[tid + j]) j--;`
`bmhCompare tb pb tid k` is true iff the loop started at `j = k - 1` runs `j`
below zero, i.e. all positions `j < k` compare equal, tested from high to low
with short-circuit. -/
def bmhCompare (textBuf patBuf : List Byte) (tid : Nat) : Nat → Bool
  | 0 => true
  | j + 1 => (patBuf.getD j 0 == textBuf.getD (tid + j) 0) && bmhCompare textBuf patBuf tid j

/-- The shared result channel: the atomic counter (buffer 3) plus the log of
writes `(slot index, offset)` performed on the offsets buffer (buffer 2), in
the order the pre-increment values were handed out. -/
structure Channel where
  count : Nat
  writes : List (Nat × Nat)
  deriving DecidableEq, Repr

/-- One invocation of the Metal kernel `grep_kernel` (main.cpp lines 20-66)
at thread id `tid`, acting on the shared channel.  The buffers are the host
buffers: haystack bytes plus a trailing NUL, pattern bytes plus a trailing
NUL (lines 125-128).  The bad-character table built at lines 39-49 is never
read by the search (each thread tests a single offset), so it does not appear
here; its out-of-bounds indexing hazard is modelled separately by
`badCharWriteIndices`. -/
def grep_kernel (textBuf patBuf : List Byte) (ch : Channel) (tid : Nat) : Channel :=
  let text_length := cstrlen textBuf
  let pattern_length := cstrlen patBuf
  if pattern_length = 0 ∨ tid > uintSub text_length pattern_length then ch
  else if bmhCompare textBuf patBuf tid pattern_length then
    { count := ch.count + 1
      writes :=
        if ch.count < KERNEL_GUARD then ch.writes ++ [(ch.count, tid)] else ch.writes }
  else ch

/-- The guard-and-compare condition under which one kernel invocation records
a match (the complement of the early return at line 36, conjoined with the
comparison succeeding). -/
def kernelAccepts (textBuf patBuf : List Byte) (tid : Nat) : Bool :=
  let text_length := cstrlen textBuf
  let pattern_length := cstrlen patBuf
  !(pattern_length == 0 || decide (tid > uintSub text_length pattern_length)) &&
    bmhCompare textBuf patBuf tid pattern_length

/-- The dispatch of main.cpp lines 151-161: the kernel instances run over the
grid; the atomic counter serialises them in some order, modelled by the list
`order` of thread ids (in a real run, a permutation of the grid determined by
the device scheduler).  The channel starts zeroed (lines 131-132). -/
def dispatch (textBuf patBuf : List Byte) (order : List Nat) : Channel :=
  order.foldl (grep_kernel textBuf patBuf) { count := 0, writes := [] }

/-- The offsets that actually land inside a `cap`-slot offsets buffer, in
slot order: the writes whose slot index is in bounds. -/
def retained (ch : Channel) (cap : Nat) : List Nat :=
  (ch.writes.filter (fun w => w.1 < cap)).map Prod.snd

/-- The specification-side match test: the haystack slice of length
`P.length` starting at `o` equals `P`. -/
def sliceEq (H P : List Byte) (o : Nat) : Bool := (H.drop o).take P.length == P

/-- The log of writes produced by a run of match successes whose
pre-increment counter values start at `c0`: each success with counter value
below `KERNEL_GUARD` appends its `(slot, offset)` pair. -/
def writesFrom (c0 : Nat) : List Nat → List (Nat × Nat)
  | [] => []
  | m :: ms => (if c0 < KERNEL_GUARD then [(c0, m)] else []) ++ writesFrom (c0 + 1) ms

/-- The host read-back at main.cpp lines 164-169: read the counter; if it
exceeds `max_matches`, warn (first component) and clamp the count used for
the copy, the header and the print loop (second component). -/
def harvest (gpuCount : Nat) : Bool × Nat :=
  if gpuCount > max_matches then (true, max_matches) else (false, gpuCount)

/-- The stderr warning text of main.cpp lines 166-167, carrying the
pre-clamp (true) count. -/
def warningLine (gpuCount : Nat) : String :=
  "Warning: Found " ++ toString gpuCount ++ " matches but only " ++
    toString max_matches ++ " can be stored"

/-- The line-start index built at main.cpp lines 176-182: start from `[0]`,
and for every newline byte (10) at position `i` append `i + 1`. -/
def line_starts (text : List Byte) : List Nat :=
  (List.range text.length).foldl
    (fun acc i => if text.getD i 0 == 10 then acc ++ [i + 1] else acc) [0]

/-- The linear line-lookup loop of main.cpp lines 187-192, entered at index
`k`: scan `k` upward while `k < starts.length - 1`, stopping at the first `k`
with `starts[k] <= pos < starts[k+1]`; if none stops the scan, the loop
leaves `k = starts.length - 1`. -/
def findLineIdxFrom (starts : List Nat) (pos : Nat) (k : Nat) : Nat :=
  if k < starts.length - 1 then
    if starts.getD k 0 ≤ pos ∧ pos < starts.getD (k + 1) 0 then k
    else findLineIdxFrom starts pos (k + 1)
  else k
termination_by starts.length - k
decreasing_by omega

/-- The line extraction of main.cpp lines 195-199: `substr(line_start,
line_end - line_start)` with `line_end = starts[k+1] - 1` when another line
follows, else the text length. -/
def matching_line (text : List Byte) (starts : List Nat) (k : Nat) : List Byte :=
  let line_start := starts.getD k 0
  let line_end := if k < starts.length - 1 then starts.getD (k + 1) 0 - 1 else text.length
  (text.drop line_start).take (line_end - line_start)

/-- The line slice as the spec words it: from `LineIndex[k]` to
`LineIndex[k+1] - 1` if `k + 1 < L` else `N`. -/
def specLineText (text : List Byte) (starts : List Nat) (k : Nat) : List Byte :=
  let s := starts.getD k 0
  let e := if k + 1 < starts.length then starts.getD (k + 1) 0 - 1 else text.length
  (text.drop s).take (e - s)

/-- A single-quote character, built numerically. -/
def sq : String := String.mk [Char.ofNat 39]

/-- The header printed at main.cpp lines 103-104 and 172-173:
`Found <count> matches for <q><pattern><q> in file <q><source><q>` where
`<q>` is a single quote.  Note the literal word `file` before the source. -/
def headerLine (count : Nat) (pattern source : String) : String :=
  "Found " ++ toString count ++ " matches for " ++ sq ++ pattern ++ sq ++
    " in file " ++ sq ++ source ++ sq

/-- The header as the spec words it:
`Found <count> matches for <q><pattern><q> in <q><source><q>` (no `file`). -/
def specHeaderLine (count : Nat) (pattern source : String) : String :=
  "Found " ++ toString count ++ " matches for " ++ sq ++ pattern ++ sq ++
    " in " ++ sq ++ source ++ sq

/-- The per-match record of main.cpp line 202:
`<source>:<lineNumber>:<tab><lineText>`. -/
def recordLine (source : String) (lineNum : Nat) (lineText : String) : String :=
  source ++ ":" ++ toString lineNum ++ ":" ++ "\t" ++ lineText

/-- The per-match record as the spec words it (identical template). -/
def specRecordLine (source : String) (lineNum : Nat) (lineText : String) : String :=
  source ++ ":" ++ toString lineNum ++ ":" ++ "\t" ++ lineText

/-- Byte list rendered as text for output. -/
def renderBytes (l : List Byte) : String := String.mk (l.map Char.ofNat)

/-- `readFile` (main.cpp lines 70-79): when the file cannot be opened the
function prints a diagnostic to stderr and returns the empty string; the
open attempt is modelled as an `Option` of the contents. -/
def readFile (contents : Option (List Byte)) : List Byte := contents.getD []

/-- The early-exit test of main.cpp line 102: `text.empty() || pattern.empty()`. -/
def skipsDispatch (text pat : List Byte) : Bool := text.isEmpty || pat.isEmpty

/-- The grid width computed at main.cpp line 152:
`text.size() - pattern.size() + 1` in `size_t` arithmetic (wraps on
underflow when the pattern is longer than the text). -/
def gridWidth (N M : Nat) : Nat := ((N + SIZE_T_MOD - M) % SIZE_T_MOD + 1) % SIZE_T_MOD

/-- The post-setup behaviour of `main` (lines 102-203) on stdout: the early
exit for empty text or pattern, else dispatch over `order`, harvest, header,
and one record per retained offset, paired with the process exit code. -/
def mainRun (text pat : List Byte) (patStr source : String) (order : List Nat) :
    List String × Int :=
  if text.isEmpty || pat.isEmpty then
    ([headerLine 0 patStr source], 0)
  else
    let ch := dispatch (text ++ [0]) (pat ++ [0]) order
    let cnt := (harvest ch.count).2
    let positions := retained ch max_matches
    let starts := line_starts text
    (headerLine cnt patStr source ::
      positions.map (fun pos =>
        let k := findLineIdxFrom starts pos 0
        recordLine source (k + 1) (renderBytes (matching_line text starts k))), 0)

/-- Metal `char` is a signed 8-bit type: the value a pattern byte denotes
when used as an array index at main.cpp line 48. -/
def signedCharVal (b : Byte) : Int := if b < 128 then (b : Int) else (b : Int) - 256

/-- The indices used to address `bad_char_shift` while building the table at
main.cpp lines 47-49: `bad_char_shift[pattern[i]]` for `i < M - 1`. -/
def badCharWriteIndices (pat : List Byte) : List Int :=
  (List.range (pat.length - 1)).map (fun i => signedCharVal (pat.getD i 0))

/-- The header template of the amended claim C5: as the code prints it, with
the word `file` before the quoted source. -/
def amendedHeaderLine (count : Nat) (pattern source : String) : String :=
  "Found " ++ toString count ++ " matches for " ++ sq ++ pattern ++ sq ++
    " in file " ++ sq ++ source ++ sq

/-! ### Theorems -/

lemma grep_kernel_of_accepts (tb pb : List Byte) (ch : Channel) (tid : Nat)
    (h : kernelAccepts tb pb tid = true) :
    grep_kernel tb pb ch tid =
      { count := ch.count + 1
        writes := ch.writes ++ (if ch.count < KERNEL_GUARD then [(ch.count, tid)] else []) } := by
  unfold kernelAccepts at h
  simp only [Bool.and_eq_true, Bool.not_eq_true', Bool.or_eq_false_iff, beq_eq_false_iff_ne,
    decide_eq_false_iff_not, not_lt] at h
  obtain ⟨⟨h1, h2⟩, h3⟩ := h
  unfold grep_kernel
  rw [if_neg, if_pos h3]
  · split <;> simp
  · push_neg
    exact ⟨h1, h2⟩

lemma grep_kernel_of_rejects (tb pb : List Byte) (ch : Channel) (tid : Nat)
    (h : kernelAccepts tb pb tid = false) :
    grep_kernel tb pb ch tid = ch := by
  unfold grep_kernel
  by_cases hg : cstrlen pb = 0 ∨ tid > uintSub (cstrlen tb) (cstrlen pb)
  · rw [if_pos hg]
  · rw [if_neg hg]
    push_neg at hg
    cases hb : bmhCompare tb pb tid (cstrlen pb) with
    | false => simp [hb]
    | true =>
        exfalso
        unfold kernelAccepts at h
        simp [hb, hg.1, hg.2, not_lt.mpr hg.2] at h

lemma foldl_grep_kernel (tb pb : List Byte) (order : List Nat) :
    ∀ ch : Channel,
      order.foldl (grep_kernel tb pb) ch =
        { count := ch.count + (order.filter (kernelAccepts tb pb)).length
          writes := ch.writes ++ writesFrom ch.count (order.filter (kernelAccepts tb pb)) } := by
  induction order with
  | nil => intro ch; simp [writesFrom]
  | cons tid rest ih =>
      intro ch
      rw [List.foldl_cons]
      by_cases h : kernelAccepts tb pb tid = true
      · rw [grep_kernel_of_accepts tb pb ch tid h, ih]
        simp only [List.filter_cons, h, if_pos, writesFrom, List.length_cons, Channel.mk.injEq]
        constructor
        · omega
        · rw [List.append_assoc]
      · rw [grep_kernel_of_rejects tb pb ch tid (by simpa using h), ih]
        simp only [List.filter_cons, if_neg h]

lemma retained_writesFrom (cap : Nat) (hcap : cap ≤ KERNEL_GUARD) (ms : List Nat) :
    ∀ c0 : Nat,
      ((writesFrom c0 ms).filter (fun w => w.1 < cap)).map Prod.snd = ms.take (cap - c0) := by
  induction ms with
  | nil => intro c0; simp [writesFrom]
  | cons m rest ih =>
      intro c0
      by_cases h : c0 < cap
      · have hg : c0 < KERNEL_GUARD := lt_of_lt_of_le h hcap
        obtain ⟨k, hk⟩ : ∃ k, cap - c0 = k + 1 := ⟨cap - c0 - 1, by omega⟩
        have hk' : cap - (c0 + 1) = k := by omega
        simp [writesFrom, hg, h, ih, hk, hk']
      · have h1 : cap - c0 = 0 := by omega
        have h2 : cap - (c0 + 1) = 0 := by omega
        by_cases hg : c0 < KERNEL_GUARD
        · simp [writesFrom, hg, h, ih, h1, h2]
        · simp [writesFrom, hg, ih, h1, h2]

lemma cstrlen_append_single (l : List Byte) (h : 0 ∉ l) : cstrlen (l ++ [0]) = l.length := by
  induction l with
  | nil => simp [cstrlen]
  | cons b t ih =>
      simp only [List.mem_cons, not_or] at h
      have hb : ¬ b = 0 := fun hb => h.1 hb.symm
      simp only [List.cons_append, cstrlen, if_neg hb, List.length_cons, List.append_eq]
      rw [ih h.2]

lemma bmhCompare_iff (tb pb : List Byte) (tid : Nat) :
    ∀ k, bmhCompare tb pb tid k = true ↔ ∀ j, j < k → pb.getD j 0 = tb.getD (tid + j) 0 := by
  intro k
  induction k with
  | zero => simp [bmhCompare]
  | succ n ih =>
      simp only [bmhCompare, Bool.and_eq_true, beq_iff_eq, ih]
      constructor
      · rintro ⟨h1, h2⟩ j hj
        rcases Nat.lt_succ_iff_lt_or_eq.mp hj with h | h
        · exact h2 j h
        · subst h; exact h1
      · intro h
        exact ⟨h n (Nat.lt_succ_self n), fun j hj => h j (Nat.lt_succ_of_lt hj)⟩

lemma uintSub_eq (a b : Nat) (hb : b ≤ a) (ha : a < UINT_MOD) : uintSub a b = a - b := by
  unfold uintSub
  have h1 : a + UINT_MOD - b = (a - b) + UINT_MOD := by omega
  rw [h1, Nat.add_mod_right, Nat.mod_eq_of_lt (by omega)]

lemma sliceEq_iff_forall (H P : List Byte) (o : Nat) (h : o + P.length ≤ H.length) :
    sliceEq H P o = true ↔ ∀ j, j < P.length → P.getD j 0 = H.getD (o + j) 0 := by
  unfold sliceEq
  rw [beq_iff_eq]
  have hlen : ((H.drop o).take P.length).length = P.length := by
    simp only [List.length_take, List.length_drop]
    omega
  have hget : ∀ j, j < P.length → ((H.drop o).take P.length).getD j 0 = H.getD (o + j) 0 := by
    intro j hj
    have hj1 : j < ((H.drop o).take P.length).length := by rw [hlen]; exact hj
    have hj2 : o + j < H.length := by omega
    rw [List.getD_eq_getElem _ _ hj1, List.getD_eq_getElem _ _ hj2]
    simp [List.getElem_take, List.getElem_drop]
  constructor
  · intro he j hj
    rw [← hget j hj, he]
  · intro hp
    apply List.ext_getElem (by rw [hlen])
    intro i h1 h2
    have hi : i < P.length := h2
    have := hp i hi
    rw [List.getD_eq_getElem _ _ hi,
      List.getD_eq_getElem _ _ (show o + i < H.length by omega)] at this
    simp only [List.getElem_take, List.getElem_drop]
    exact this.symm

lemma bmhCompare_eq_sliceEq (H P : List Byte) (tid : Nat) (h : tid + P.length ≤ H.length) :
    bmhCompare (H ++ [0]) (P ++ [0]) tid P.length = sliceEq H P tid := by
  rw [Bool.eq_iff_iff, bmhCompare_iff, sliceEq_iff_forall H P tid h]
  constructor
  · intro hb j hj
    have hx := hb j hj
    rwa [List.getD_append _ _ _ _ hj, List.getD_append _ _ _ _ (by omega)] at hx
  · intro hp j hj
    rw [List.getD_append _ _ _ _ hj, List.getD_append _ _ _ _ (by omega)]
    exact hp j hj

lemma kernelAccepts_eq_sliceEq (H P : List Byte) (tid : Nat)
    (hH : 0 ∉ H) (hP : 0 ∉ P) (hPne : P ≠ [])
    (hlen : P.length ≤ H.length) (hsz : H.length < UINT_MOD)
    (htid : tid ≤ H.length - P.length) :
    kernelAccepts (H ++ [0]) (P ++ [0]) tid = sliceEq H P tid := by
  unfold kernelAccepts
  rw [cstrlen_append_single H hH, cstrlen_append_single P hP]
  show (!(P.length == 0 || decide (tid > uintSub H.length P.length)) &&
      bmhCompare (H ++ [0]) (P ++ [0]) tid P.length) = sliceEq H P tid
  rw [uintSub_eq _ _ hlen hsz]
  have h1 : (P.length == 0) = false := by
    simp [List.length_eq_zero, hPne]
  have h2 : decide (tid > H.length - P.length) = false := by
    simp
    omega
  rw [h1, h2]
  simp only [Bool.or_false, Bool.not_false, Bool.true_and]
  exact bmhCompare_eq_sliceEq H P tid (by omega)

/-- C1 (amended, NUL-free haystack): for every haystack without NUL bytes
and every non-empty pattern (patterns arrive via argv and thus carry no NUL)
with `len P <= len H`, the dispatch over any scheduling order of the
candidate offsets yields: a logical count equal to the number of true
matches; a retained offset list equal to the first `max_matches` matches in
increment order; and, when the logical count is within capacity, a retained
set equal to the full match set. -/
theorem C1_retained_matches (H P : List Byte) (order : List Nat)
    (hPne : P ≠ []) (hP0 : 0 ∉ P) (hH0 : 0 ∉ H)
    (hlen : P.length ≤ H.length) (hsz : H.length < UINT_MOD)
    (hord : order.Perm (List.range (H.length - P.length + 1))) :
    (dispatch (H ++ [0]) (P ++ [0]) order).count
        = ((List.range (H.length - P.length + 1)).filter (sliceEq H P)).length ∧
    retained (dispatch (H ++ [0]) (P ++ [0]) order) max_matches
        = (order.filter (sliceEq H P)).take max_matches ∧
    ((dispatch (H ++ [0]) (P ++ [0]) order).count ≤ max_matches →
      ∀ o, o ∈ retained (dispatch (H ++ [0]) (P ++ [0]) order) max_matches ↔
        (o + P.length ≤ H.length ∧ (H.drop o).take P.length = P)) := by
  have hfc : order.filter (kernelAccepts (H ++ [0]) (P ++ [0]))
      = order.filter (sliceEq H P) := by
    apply List.filter_congr
    intro a ha
    have hr : a ∈ List.range (H.length - P.length + 1) := hord.mem_iff.mp ha
    rw [List.mem_range] at hr
    exact kernelAccepts_eq_sliceEq H P a hH0 hP0 hPne hlen hsz (by omega)
  have hd : dispatch (H ++ [0]) (P ++ [0]) order =
      { count := (order.filter (sliceEq H P)).length
        writes := writesFrom 0 (order.filter (sliceEq H P)) } := by
    unfold dispatch
    rw [foldl_grep_kernel]
    simp [hfc]
  have hcnt : (order.filter (sliceEq H P)).length
      = ((List.range (H.length - P.length + 1)).filter (sliceEq H P)).length :=
    (hord.filter _).length_eq
  have hret : retained (dispatch (H ++ [0]) (P ++ [0]) order) max_matches
      = (order.filter (sliceEq H P)).take max_matches := by
    rw [hd]
    unfold retained
    have hx := retained_writesFrom max_matches (by decide) (order.filter (sliceEq H P)) 0
    simpa using hx
  refine ⟨by rw [hd]; exact hcnt, hret, ?_⟩
  intro hle o
  rw [hret]
  rw [hd] at hle
  rw [List.take_of_length_le hle, List.mem_filter]
  constructor
  · rintro ⟨h1, h2⟩
    have ho : o < H.length - P.length + 1 := List.mem_range.mp (hord.mem_iff.mp h1)
    refine ⟨by omega, ?_⟩
    unfold sliceEq at h2
    exact beq_iff_eq.mp h2
  · rintro ⟨h1, h2⟩
    refine ⟨hord.mem_iff.mpr (List.mem_range.mpr (by omega)), ?_⟩
    unfold sliceEq
    exact beq_iff_eq.mpr h2

/-- Witness for C1: haystack `abcabcabc`, pattern `abc`, grid order
`0, ..., 6`; the three matches 0, 3, 6 are all retained. -/
theorem C1_retained_matches_witness :
    (dispatch ([97, 98, 99, 97, 98, 99, 97, 98, 99] ++ [0]) ([97, 98, 99] ++ [0])
        (List.range 7)).count
      = ((List.range 7).filter
          (sliceEq [97, 98, 99, 97, 98, 99, 97, 98, 99] [97, 98, 99])).length ∧
    retained (dispatch ([97, 98, 99, 97, 98, 99, 97, 98, 99] ++ [0]) ([97, 98, 99] ++ [0])
        (List.range 7)) max_matches
      = ((List.range 7).filter
          (sliceEq [97, 98, 99, 97, 98, 99, 97, 98, 99] [97, 98, 99])).take max_matches ∧
    ((dispatch ([97, 98, 99, 97, 98, 99, 97, 98, 99] ++ [0]) ([97, 98, 99] ++ [0])
        (List.range 7)).count ≤ max_matches →
      ∀ o, o ∈ retained (dispatch ([97, 98, 99, 97, 98, 99, 97, 98, 99] ++ [0])
          ([97, 98, 99] ++ [0]) (List.range 7)) max_matches ↔
        (o + ([97, 98, 99] : List Byte).length
            ≤ ([97, 98, 99, 97, 98, 99, 97, 98, 99] : List Byte).length ∧
          (([97, 98, 99, 97, 98, 99, 97, 98, 99] : List Byte).drop o).take
              ([97, 98, 99] : List Byte).length = [97, 98, 99])) :=
  C1_retained_matches [97, 98, 99, 97, 98, 99, 97, 98, 99] [97, 98, 99] (List.range 7)
    (by decide) (by decide) (by decide) (by decide) (by decide) (by decide)

/-- C1 (counterexample): the claim quantifies over every haystack, but a NUL
byte in the haystack stops the kernel C-string length scan early.  With
haystack `[97, 0, 97]` and pattern `[97]`, offset 2 is a true match
(the slice there equals the pattern), the logical count 1 is below the
capacity, yet 2 is not retained, so the retained set is not the full match
set. -/
theorem C1_nul_counterexample :
    sliceEq [97, 0, 97] [97] 2 = true ∧
    ([97] : List Byte).length ≤ ([97, 0, 97] : List Byte).length ∧
    (dispatch ([97, 0, 97] ++ [0]) ([97] ++ [0]) [0, 1, 2]).count = 1 ∧
    (dispatch ([97, 0, 97] ++ [0]) ([97] ++ [0]) [0, 1, 2]).count ≤ max_matches ∧
    2 ∉ retained (dispatch ([97, 0, 97] ++ [0]) ([97] ++ [0]) [0, 1, 2]) max_matches := by
  decide

/-- C2 (bug evidence): the kernel write guard is the literal 1000
(main.cpp line 62) while the host allocates `max_matches = 10` slots
(lines 100, 132, 137).  On a haystack of eleven `a` bytes with pattern `a`,
the eleventh match receives pre-increment value 10 and writes slot 10, one
past the last valid slot of the offsets buffer. -/
theorem C2_out_of_bounds_write :
    KERNEL_GUARD = 1000 ∧ max_matches = 10 ∧
    (dispatch (List.replicate 11 97 ++ [0]) ([97] ++ [0]) (List.range 11)).count = 11 ∧
    (10, 10) ∈ (dispatch (List.replicate 11 97 ++ [0]) ([97] ++ [0]) (List.range 11)).writes := by
  decide

/-- C3 (counterexample): with eleven occurrences and capacity 10, the code
clamps the count before printing the header (main.cpp line 168), so the
header reports 10, not the true logical count 11. -/
theorem C3_header_counterexample :
    (dispatch (List.replicate 11 97 ++ [0]) ([97] ++ [0]) (List.range 11)).count = 11 ∧
    harvest 11 = (true, 10) ∧ (harvest 11).2 ≠ 11 := by
  decide

/-- C4 (bug evidence): for a non-empty pattern longer than the non-empty
haystack, the early-exit test of main.cpp line 102 does not fire, and the
grid width `text.size() - pattern.size() + 1` of line 152 underflows in
`size_t`: with N = 1, M = 3 the code dispatches a grid of width
2 ^ 64 - 1 instead of skipping dispatch. -/
theorem C4_no_skip_on_long_pattern :
    skipsDispatch [97] [97, 98, 99] = false ∧
    gridWidth 1 3 = SIZE_T_MOD - 1 ∧
    gridWidth 1 2 = 0 := by
  decide

/-- C5 (counterexample): the first output line contains the word `file`
before the quoted source (main.cpp lines 103, 172), so it differs from the
claimed template `Found <count> matches for <q><pattern><q> in
<q><source><q>`. -/
theorem C5_header_counterexample :
    (mainRun [] [97] "a" "stdin" []).1 = [headerLine 0 "a" "stdin"] ∧
    headerLine 0 "a" "stdin" ≠ specHeaderLine 0 "a" "stdin" := by
  decide

/-- C10 (bug evidence): Metal `char` is signed, so a pattern byte 0xFF is
read as -1 when used to index `bad_char_shift` at main.cpp line 48: the
write lands at index -1, outside [0, 256). -/
theorem C10_signed_index_out_of_range :
    badCharWriteIndices [255, 97] = [-1] ∧ ¬ (0 : Int) ≤ -1 := by
  decide

lemma foldl_append_filter (p : Nat → Bool) (f : Nat → Nat) (l : List Nat) :
    ∀ init : List Nat,
      l.foldl (fun acc i => if p i then acc ++ [f i] else acc) init
        = init ++ (l.filter p).map f := by
  induction l with
  | nil => intro init; simp
  | cons a t ih =>
      intro init
      rw [List.foldl_cons]
      by_cases h : p a
      · rw [if_pos h, ih, List.filter_cons, if_pos h]
        simp
      · rw [if_neg h, ih, List.filter_cons, if_neg h]

lemma line_starts_eq (text : List Byte) :
    line_starts text
      = 0 :: ((List.range text.length).filter (fun i => text.getD i 0 == 10)).map (· + 1) := by
  unfold line_starts
  rw [foldl_append_filter]
  rfl

lemma filter_range_getD_count (text : List Byte) :
    ((List.range text.length).filter (fun i => text.getD i 0 == 10)).length
      = text.count 10 := by
  induction text with
  | nil => simp
  | cons b t ih =>
      rw [List.length_cons, List.range_succ_eq_map, List.filter_cons]
      have hmap : List.filter (fun i => (b :: t).getD i 0 == 10)
            ((List.range t.length).map Nat.succ)
          = (List.filter (fun i => t.getD i 0 == 10) (List.range t.length)).map Nat.succ := by
        rw [List.filter_map]
        rfl
      have h0 : ((b :: t).getD 0 0 == 10) = (b == 10) := rfl
      rw [h0, hmap, List.count_cons]
      by_cases hb : b = 10
      · rw [if_pos (show (b == 10) = true by simp [hb]),
          if_pos (show (b == 10) = true by simp [hb])]
        rw [List.length_cons, List.length_map, ih]
      · rw [if_neg (show ¬ (b == 10) = true by simp [hb]),
          if_neg (show ¬ (b == 10) = true by simp [hb])]
        rw [List.length_map, ih]
        omega

lemma line_starts_pairwise (text : List Byte) : (line_starts text).Pairwise (· < ·) := by
  rw [line_starts_eq]
  refine List.Pairwise.cons ?_ ?_
  · intro x hx
    simp only [List.mem_map] at hx
    obtain ⟨i, _, hi⟩ := hx
    omega
  · have h1 : ((List.range text.length).filter
        (fun i => text.getD i 0 == 10)).Pairwise (· < ·) :=
      (List.pairwise_lt_range text.length).sublist (List.filter_sublist _)
    rw [List.pairwise_map]
    exact h1.imp (by omega)

/-- C8: the line index is strictly increasing, starts at 0, has length equal
to the newline count plus one, and is `[0]` for the empty haystack. -/
theorem C8_line_index_invariants (text : List Byte) :
    (line_starts text).Pairwise (· < ·) ∧
    (line_starts text).head? = some 0 ∧
    (line_starts text).length = text.count 10 + 1 ∧
    line_starts ([] : List Byte) = [0] := by
  refine ⟨line_starts_pairwise text, ?_, ?_, rfl⟩
  · rw [line_starts_eq]
    rfl
  · rw [line_starts_eq, List.length_cons, List.length_map, filter_range_getD_count]

/-- C3 (amended): when the logical count exceeds the capacity, the host
emits the truncation warning, whose text carries the true count, prints at
most `max_matches` records, and the header reports the clamped count
`max_matches` rather than the true logical count. -/
theorem C3_truncation_behaviour (n : Nat) (h : max_matches < n) :
    harvest n = (true, max_matches) ∧
    warningLine n = "Warning: Found " ++ toString n ++ " matches but only " ++
      toString max_matches ++ " can be stored" ∧
    ∀ tb pb ord, (retained (dispatch tb pb ord) max_matches).length ≤ max_matches := by
  refine ⟨?_, rfl, ?_⟩
  · unfold harvest
    rw [if_pos h]
  · intro tb pb ord
    unfold dispatch
    rw [foldl_grep_kernel]
    unfold retained
    simp only [List.nil_append]
    rw [retained_writesFrom max_matches (by decide)]
    simp [List.length_take]

/-- Witness for C3: eleven matches against capacity ten. -/
theorem C3_truncation_behaviour_witness :
    harvest 11 = (true, max_matches) ∧
    warningLine 11 = "Warning: Found " ++ toString 11 ++ " matches but only " ++
      toString max_matches ++ " can be stored" ∧
    ∀ tb pb ord, (retained (dispatch tb pb ord) max_matches).length ≤ max_matches :=
  C3_truncation_behaviour 11 (by decide)

/-- C5 (amended): every completed run prints a first stdout line of the form
`Found <count> matches for <q><pattern><q> in file <q><source><q>` and
subsequent lines of the form `<source>:<lineNumber>:<tab><lineText>`, and
exits with code 0. -/
theorem C5_output_shape (text pat : List Byte) (patStr source : String) (order : List Nat) :
    ∃ cnt recs,
      mainRun text pat patStr source order = (amendedHeaderLine cnt patStr source :: recs, 0) ∧
      ∀ r ∈ recs, ∃ ln txt, r = specRecordLine source ln txt := by
  unfold mainRun
  split
  · exact ⟨0, [], rfl, by simp⟩
  · refine ⟨_, _, rfl, ?_⟩
    intro r hr
    simp only [List.mem_map] at hr
    obtain ⟨pos, _, hpos⟩ := hr
    exact ⟨_, _, hpos.symm⟩

/-- C6: an unopenable file is read back as the empty haystack, which takes
the early exit: the program reports the zero-count header on stdout and
exits with code 0 instead of failing with an I/O error. -/
theorem C6_unreadable_source (pat : List Byte) (patStr source : String) (order : List Nat) :
    readFile none = [] ∧
    mainRun (readFile none) pat patStr source order = ([headerLine 0 patStr source], 0) := by
  refine ⟨rfl, ?_⟩
  simp [mainRun, readFile]

/-- C9: an empty haystack or an empty pattern takes the early exit of
main.cpp lines 102-106: the zero-count header is printed, the exit code is
0, and no dispatch happens; independently, a kernel invocation handed an
empty pattern returns without touching the channel. -/
theorem C9_empty_inputs (text pat : List Byte) (patStr source : String) (order : List Nat)
    (h : text = [] ∨ pat = []) :
    mainRun text pat patStr source order = ([headerLine 0 patStr source], 0) ∧
    ∀ tb ch tid, grep_kernel tb ([] ++ [0]) ch tid = ch := by
  constructor
  · rcases h with h | h <;> subst h <;> simp [mainRun]
  · intro tb ch tid
    simp [grep_kernel, cstrlen]

/-- Witness for C9: empty haystack, pattern `a`. -/
theorem C9_empty_inputs_witness :
    mainRun [] [97] "a" "stdin" [] = ([headerLine 0 "a" "stdin"], 0) ∧
    ∀ tb ch tid, grep_kernel tb ([] ++ [0]) ch tid = ch :=
  C9_empty_inputs [] [97] "a" "stdin" [] (Or.inl rfl)

lemma getD_lt_of_pairwise (s : List Nat) (hs : s.Pairwise (· < ·)) (i j : Nat)
    (hij : i < j) (hj : j < s.length) : s.getD i 0 < s.getD j 0 := by
  have hi : i < s.length := lt_trans hij hj
  rw [List.getD_eq_getElem _ _ hi, List.getD_eq_getElem _ _ hj]
  have := List.pairwise_iff_get.mp hs ⟨i, hi⟩ ⟨j, hj⟩ hij
  simpa using this

lemma getD_le_of_pairwise (s : List Nat) (hs : s.Pairwise (· < ·)) (i j : Nat)
    (hij : i ≤ j) (hj : j < s.length) : s.getD i 0 ≤ s.getD j 0 := by
  rcases Nat.eq_or_lt_of_le hij with h | h
  · subst h
    exact le_refl _
  · exact le_of_lt (getD_lt_of_pairwise s hs i j h hj)

lemma findLineIdxFrom_greatest (s : List Nat) (pos : Nat) (hs : s.Pairwise (· < ·)) :
    ∀ n k, s.length - k ≤ n → k < s.length → s.getD k 0 ≤ pos →
      (k ≤ findLineIdxFrom s pos k ∧
       findLineIdxFrom s pos k < s.length ∧
       s.getD (findLineIdxFrom s pos k) 0 ≤ pos ∧
       ∀ j, j < s.length → s.getD j 0 ≤ pos → j ≤ findLineIdxFrom s pos k) := by
  intro n
  induction n with
  | zero =>
      intro k h1 h2 h3
      omega
  | succ n ih =>
      intro k h1 h2 h3
      rw [findLineIdxFrom]
      by_cases hk : k < s.length - 1
      · rw [if_pos hk]
        by_cases hc : s.getD k 0 ≤ pos ∧ pos < s.getD (k + 1) 0
        · rw [if_pos hc]
          refine ⟨le_refl k, h2, h3, ?_⟩
          intro j hj hjle
          by_contra hgt
          push_neg at hgt
          have hmono : s.getD (k + 1) 0 ≤ s.getD j 0 :=
            getD_le_of_pairwise s hs (k + 1) j (by omega) hj
          omega
        · rw [if_neg hc]
          have hnext : s.getD (k + 1) 0 ≤ pos := by
            rcases not_and_or.mp hc with h | h
            · exact absurd h3 h
            · push_neg at h
              exact h
          have hr := ih (k + 1) (by omega) (by omega) hnext
          exact ⟨by omega, hr.2.1, hr.2.2.1, hr.2.2.2⟩
      · rw [if_neg hk]
        exact ⟨le_refl k, h2, h3, fun j hj _ => by omega⟩

lemma line_starts_tail_newline (text : List Byte) (k : Nat)
    (hk : k + 1 < (line_starts text).length) :
    1 ≤ (line_starts text).getD (k + 1) 0 ∧
    (line_starts text).getD (k + 1) 0 - 1 < text.length ∧
    text.getD ((line_starts text).getD (k + 1) 0 - 1) 0 = 10 := by
  rw [line_starts_eq] at hk ⊢
  rw [List.getD_cons_succ]
  have hk' : k < (((List.range text.length).filter
      (fun i => text.getD i 0 == 10)).map (· + 1)).length := by
    simpa using hk
  have hmem : (((List.range text.length).filter
      (fun i => text.getD i 0 == 10)).map (· + 1)).getD k 0
      ∈ ((List.range text.length).filter (fun i => text.getD i 0 == 10)).map (· + 1) := by
    rw [List.getD_eq_getElem _ _ hk']
    exact List.getElem_mem _
  simp only [List.mem_map, List.mem_filter, List.mem_range] at hmem
  obtain ⟨i, ⟨hi1, hi2⟩, hi3⟩ := hmem
  rw [← hi3]
  refine ⟨by omega, by omega, ?_⟩
  have : i + 1 - 1 = i := by omega
  rw [this]
  simpa using hi2

lemma matching_line_eq_spec (text : List Byte) (s : List Nat) (k : Nat) :
    matching_line text s k = specLineText text s k := by
  by_cases h : k + 1 < s.length
  · have h' : k < s.length - 1 := by omega
    simp [matching_line, specLineText, h, h']
  · have h' : ¬ k < s.length - 1 := by omega
    simp [matching_line, specLineText, h, h']

/-- C7: for any offset `o` of a retained match (`0 ≤ o ≤ N - M`, `M ≥ 1`),
the reporter loop run on the line index of the haystack returns exactly the
greatest index `k` with `LineIndex[k] ≤ o` (so a match is attributed to the
line holding its start offset, wherever it ends), prints line number
`k + 1`, and extracts exactly the slice the spec describes, the excluded
trailing byte being the newline whenever a further line exists. -/
theorem C7_line_mapping (text : List Byte) (o M : Nat)
    (_hM : 1 ≤ M) (_ho : o + M ≤ text.length) :
    findLineIdxFrom (line_starts text) o 0 < (line_starts text).length ∧
    (line_starts text).getD (findLineIdxFrom (line_starts text) o 0) 0 ≤ o ∧
    (∀ j, j < (line_starts text).length →
      (line_starts text).getD j 0 ≤ o → j ≤ findLineIdxFrom (line_starts text) o 0) ∧
    matching_line text (line_starts text) (findLineIdxFrom (line_starts text) o 0)
      = specLineText text (line_starts text) (findLineIdxFrom (line_starts text) o 0) ∧
    (findLineIdxFrom (line_starts text) o 0 + 1 < (line_starts text).length →
      text.getD ((line_starts text).getD
        (findLineIdxFrom (line_starts text) o 0 + 1) 0 - 1) 0 = 10) := by
  have hp : (line_starts text).Pairwise (· < ·) := line_starts_pairwise text
  have hlen : 0 < (line_starts text).length := by
    rw [line_starts_eq]
    simp
  have h0 : (line_starts text).getD 0 0 = 0 := by
    rw [line_starts_eq]
    rfl
  have hg := findLineIdxFrom_greatest (line_starts text) o hp
    (line_starts text).length 0 (by omega) hlen (by rw [h0]; omega)
  refine ⟨hg.2.1, hg.2.2.1, hg.2.2.2, matching_line_eq_spec text _ _, ?_⟩
  intro hk
  exact (line_starts_tail_newline text _ hk).2.2

/-- Witness for C7: haystack `foo\nbar\nfoobar\n`, match of length 3 at
offset 8 (the start of the third line). -/
theorem C7_line_mapping_witness :
    findLineIdxFrom (line_starts [102, 111, 111, 10, 98, 97, 114, 10, 102, 111, 111, 98, 97, 114, 10]) 8 0
        < (line_starts [102, 111, 111, 10, 98, 97, 114, 10, 102, 111, 111, 98, 97, 114, 10]).length ∧
    (line_starts [102, 111, 111, 10, 98, 97, 114, 10, 102, 111, 111, 98, 97, 114, 10]).getD
        (findLineIdxFrom (line_starts [102, 111, 111, 10, 98, 97, 114, 10, 102, 111, 111, 98, 97, 114, 10]) 8 0) 0 ≤ 8 ∧
    (∀ j, j < (line_starts [102, 111, 111, 10, 98, 97, 114, 10, 102, 111, 111, 98, 97, 114, 10]).length →
      (line_starts [102, 111, 111, 10, 98, 97, 114, 10, 102, 111, 111, 98, 97, 114, 10]).getD j 0 ≤ 8 →
      j ≤ findLineIdxFrom (line_starts [102, 111, 111, 10, 98, 97, 114, 10, 102, 111, 111, 98, 97, 114, 10]) 8 0) ∧
    matching_line [102, 111, 111, 10, 98, 97, 114, 10, 102, 111, 111, 98, 97, 114, 10]
        (line_starts [102, 111, 111, 10, 98, 97, 114, 10, 102, 111, 111, 98, 97, 114, 10])
        (findLineIdxFrom (line_starts [102, 111, 111, 10, 98, 97, 114, 10, 102, 111, 111, 98, 97, 114, 10]) 8 0)
      = specLineText [102, 111, 111, 10, 98, 97, 114, 10, 102, 111, 111, 98, 97, 114, 10]
        (line_starts [102, 111, 111, 10, 98, 97, 114, 10, 102, 111, 111, 98, 97, 114, 10])
        (findLineIdxFrom (line_starts [102, 111, 111, 10, 98, 97, 114, 10, 102, 111, 111, 98, 97, 114, 10]) 8 0) ∧
    (findLineIdxFrom (line_starts [102, 111, 111, 10, 98, 97, 114, 10, 102, 111, 111, 98, 97, 114, 10]) 8 0 + 1
        < (line_starts [102, 111, 111, 10, 98, 97, 114, 10, 102, 111, 111, 98, 97, 114, 10]).length →
      ([102, 111, 111, 10, 98, 97, 114, 10, 102, 111, 111, 98, 97, 114, 10] : List Byte).getD
        ((line_starts [102, 111, 111, 10, 98, 97, 114, 10, 102, 111, 111, 98, 97, 114, 10]).getD
          (findLineIdxFrom (line_starts [102, 111, 111, 10, 98, 97, 114, 10, 102, 111, 111, 98, 97, 114, 10]) 8 0 + 1) 0 - 1) 0 = 10) :=
  C7_line_mapping [102, 111, 111, 10, 98, 97, 114, 10, 102, 111, 111, 98, 97, 114, 10] 8 3
    (by decide) (by decide)

end Applegrep
